import Mathlib

/-!
Verification of the retrieval core of the RAG-pdfs-docker repository.

The development shallowly embeds the retrieval pipeline:

* `QueryRewriter.expand_query_multiple`
  (services/rag-core/src/rag_pdf_processor/retrieval/query_rewriter.py),
* `VectorRetriever.hybrid_search` and `VectorRetriever.hybrid_search_with_rerank`
  (services/rag-core/src/rag_pdf_processor/retrieval/vector_retriever.py),
* `DocumentReranker.rerank` (src/rag_pdf_processor/retrieval/reranker.py),
* the pipeline orchestration functions `execute_rag_pipeline_rewriter` and
  `execute_rag_pipeline` (services/rag-core/api.py).

External collaborators are modelled as explicit parameters:

* the Qdrant index (`client.query_points` wrapped by `hybrid_search`) is a
  function `String → Nat → Except Unit (List Hit)`; an `Except.error` models
  the call raising an exception;
* the cross-encoder scoring backend is a pairwise scoring function
  `String → String → Rat` together with a `fails` flag modelling the batch
  scoring call raising; a missing backend (`Option.none`) models the
  `DocumentReranker()` constructor raising;
* the expansion LLM call is an `Except Unit String` (the raw generated text,
  or an error when the service call raises).

Python floats are modelled as rationals (`Rat`); Python `str` values as
`String`, with character-level slicing done on `String.data`.  Python dicts
built by the pipeline always carry the keys `content`, `book_name`,
`chapter`, `score`, `id`, while `rerank_score` / `original_score` are only
added by a successful rerank, hence those two are `Option`-valued; the
`chunk["rerank_score"]` dict accesses in the bundle-assembly list
comprehension are therefore `Option`-valued reads, and a `KeyError` (which
the FastAPI endpoint turns into an HTTP 500) is modelled as the assembly
returning `none`.
-/

namespace RagPdf

/-- Relevance scores (Python floats in the source) are modelled as rationals. -/
abbrev Score := Rat

/-- One Qdrant point returned by `client.query_points`: payload fields plus the
RRF fusion score and the point id.  Qdrant point ids in this repository are
UUID strings (`upsert_chunk` defaults to `str(uuid.uuid4())`). -/
structure Hit where
  id : String
  content : String
  book_name : String
  chapter : String
  score : Score
  deriving DecidableEq

/-- The ad hoc result dict threaded through the pipeline.  `hybrid_search`
creates it with keys `content`, `book_name`, `chapter`, `score`, `id`;
`DocumentReranker.rerank` adds `rerank_score` and `original_score` on its
success path only, so those keys are `Option`-valued. -/
structure Chunk where
  id : String
  content : String
  book_name : String
  chapter : String
  score : Score
  rerank_score : Option Score
  original_score : Option Score
  deriving DecidableEq

/-- The dict literal built inside `VectorRetriever.hybrid_search` for each
returned point (no `rerank_score` / `original_score` keys yet). -/
def hitToChunk (p : Hit) : Chunk :=
  { id := p.id, content := p.content, book_name := p.book_name,
    chapter := p.chapter, score := p.score,
    rerank_score := none, original_score := none }

/-- The cross-encoder scoring backend (`fastembed` `TextCrossEncoder`).
`score` is the pairwise score of (query, document content); `fails` models
the batch call `self.reranker.rerank(query, contents)` raising. -/
structure RerankBackend where
  score : String → String → Score
  fails : Bool

/-- The sort used throughout the source: Python's `list.sort(key=..,
reverse=True)`, i.e. a stable sort, descending by a numeric key.  Stable
insertion sort: an element is inserted behind every earlier element whose key
is at least as large, so elements with equal keys keep their original
relative order. -/
def insertDescBy {α : Type} (key : α → Score) (x : α) : List α → List α
  | [] => [x]
  | y :: ys => if key y ≤ key x then x :: y :: ys else y :: insertDescBy key x ys

/-- Stable descending sort by `key` (model of Python's stable `list.sort`
with `reverse=True`). -/
def sortDescBy {α : Type} (key : α → Score) : List α → List α
  | [] => []
  | x :: xs => insertDescBy key x (sortDescBy key xs)

/-- Sort key used by the pipeline, `x.get('rerank_score', 0)` in
`execute_rag_pipeline_rewriter` step 4 (a missing key defaults to 0). -/
def rerankKey (c : Chunk) : Score := c.rerank_score.getD 0

/-- `VectorRetriever.hybrid_search`: issue the fused dense+sparse query and
convert points to result dicts; the enclosing `try/except` converts ANY
failure of the index call into an empty result list (source lines 183-185). -/
def hybrid_search (idx : String → Nat → Except Unit (List Hit))
    (query : String) (limit : Nat) : List Chunk :=
  match idx query limit with
  | .ok points => points.map hitToChunk
  | .error _ => []

/-- `DocumentReranker.rerank`.  The whole body is wrapped in `try/except`:
if the batch scoring call raises (`b.fails`), the original documents are
returned truncated to `top_k`, without `rerank_score` keys.  On success each
document is copied and enriched with `rerank_score` (the pairwise score of
the query against its content; the batch call scores `documents` index by
index, modelled here by mapping the pairwise function over the list) and
`original_score := doc.get("score", 0)` (the `score` key is always present
on dicts produced by `hybrid_search`), then the scored tuples are sorted
descending by the rerank score (stable) and truncated to `top_k`. -/
def DocumentReranker.rerank (b : RerankBackend) (query : String)
    (documents : List Chunk) (top_k : Nat) : List Chunk :=
  if documents = [] then []
  else if b.fails then documents.take top_k
  else
    (sortDescBy rerankKey
      (documents.map (fun doc =>
        { doc with rerank_score := some (b.score query doc.content),
                   original_score := some doc.score }))).take top_k

/-- `VectorRetriever.hybrid_search_with_rerank`: search with an oversampled
limit of `limit * 2` ("Buscar más para rerank"), then, when requested and
non-empty, rerank down to `limit`.  `backend = none` models the
`DocumentReranker()` constructor raising, which is caught by the enclosing
`try/except` and degrades to `results[:limit]`. -/
def hybrid_search_with_rerank (idx : String → Nat → Except Unit (List Hit))
    (backend : Option RerankBackend) (query : String) (limit : Nat)
    (use_rerank : Bool) : List Chunk :=
  let results := hybrid_search idx query (limit * 2)
  if use_rerank ∧ results ≠ [] then
    match backend with
    | some b => DocumentReranker.rerank b query results limit
    | none => results.take limit
  else results.take limit

/-- Python `text.split('\n')` modelled structurally on the character list:
split at every newline, keeping empty segments (`"".split('\n') == [""]`). -/
def splitLinesGo : List Char → List Char → List String
  | [], acc => [String.mk acc.reverse]
  | c :: cs, acc =>
    if c = '\n' then String.mk acc.reverse :: splitLinesGo cs []
    else splitLinesGo cs (c :: acc)

/-- Split a string into its newline-separated lines (Python `str.split('\n')`). -/
def splitLines (s : String) : List String := splitLinesGo s.data []

/-- Python `str.strip()` (ASCII whitespace): drop leading and trailing
whitespace characters. -/
def pyStrip (s : String) : String :=
  String.mk (((s.data.dropWhile Char.isWhitespace).reverse.dropWhile
    Char.isWhitespace).reverse)

/-- Python `str.lower()` restricted to ASCII letters (sufficient for the
sentinel comparison against "none"/"null"). -/
def lowerChar (c : Char) : Char :=
  if 'A' ≤ c ∧ c ≤ 'Z' then Char.ofNat (c.toNat + 32) else c

/-- Lower-case every character of a string (Python `str.lower()`). -/
def pyLower (s : String) : String := String.mk (s.data.map lowerChar)

/-- Line parsing in `QueryRewriter.expand_query_multiple`: split the LLM
output on newlines, strip whitespace, drop blank lines. -/
def parsedQueries (text : String) : List String :=
  ((splitLines text).map pyStrip).filter (fun q => q ≠ "")

/-- The "no answer" sentinel test: the lower-cased line is "none" or "null". -/
def isSentinel (q : String) : Bool :=
  pyLower q == "none" || pyLower q == "null"

/-- `QueryRewriter.expand_query_multiple`: parse the LLM response into
variants.  `response` is the outcome of the generation call (`Except.error`
models the call raising, which the `except` branch turns into
`[original_query]`).  The `num_queries` argument of the source only shapes
the prompt, not the parsing, so it does not appear here. -/
def expand_query_multiple (original_query : String)
    (response : Except Unit String) : List String :=
  match response with
  | .error _ => [original_query]
  | .ok text =>
    let queries := parsedQueries text
    if queries = [] ∨ queries.all isSentinel then [original_query]
    else queries.filter (fun q => !(isSentinel q))

/-- The dedup loop of `execute_rag_pipeline_rewriter` step 3, with the seen
id set made explicit.  Note the guard `if chunk_id and chunk_id not in
unique_retrieval_context_map`: a falsy id (the empty string) causes the
chunk to be dropped entirely; otherwise first-seen wins and the dict
preserves insertion order. -/
def dedupGo : List Chunk → List String → List Chunk
  | [], _ => []
  | c :: rest, seen =>
    if c.id ≠ "" ∧ c.id ∉ seen then c :: dedupGo rest (c.id :: seen)
    else dedupGo rest seen

/-- Deduplicate a concatenated hit list by id (first-seen-wins, falsy ids
dropped), preserving insertion order — `execute_rag_pipeline_rewriter`
lines 246-253. -/
def dedupChunks (l : List Chunk) : List Chunk := dedupGo l []

/-- `content[:200] + ("..." if len(content) > 200 else "")` — the text
preview built during bundle assembly, modelled on the character list. -/
def textPreview (s : String) : String :=
  String.mk (s.data.take 200 ++ (if 200 < s.data.length then "...".data else []))

/-- One entry of the final context bundle (the dict literal of
`context_retrieval_context_for_llm`). -/
structure ContextEntry where
  chunk_id : String
  content : String
  source_document : String
  relevance_score : Score
  original_score : Score
  text_preview : String
  deriving DecidableEq

/-- Build one bundle entry from a chunk dict.  The source reads
`chunk["rerank_score"]` and `chunk["original_score"]` with bracket access:
if either key is absent the comprehension raises `KeyError`, modelled by
`none`. -/
def assembleEntry (c : Chunk) : Option ContextEntry :=
  match c.rerank_score, c.original_score with
  | some rs, some os =>
    some { chunk_id := c.id, content := c.content,
           source_document := "book: " ++ c.book_name ++ " - chapter: " ++ c.chapter,
           relevance_score := rs, original_score := os,
           text_preview := textPreview c.content }
  | _, _ => none

/-- The bundle-assembly list comprehension: build entries in order, raising
(`none`) as soon as one chunk lacks a required key. -/
def assembleBundle : List Chunk → Option (List ContextEntry)
  | [] => some []
  | c :: rest =>
    match assembleEntry c, assembleBundle rest with
    | some e, some es => some (e :: es)
    | _, _ => none

/-- The process-wide collaborators of the pipeline functions in api.py. -/
structure Env where
  idx : String → Nat → Except Unit (List Hit)
  backend : Option RerankBackend
  expandResponse : Except Unit String

/-- Steps 1-2 of `execute_rag_pipeline_rewriter`: expand the query, search
each variant with `hybrid_search_with_rerank(query, limit=5,
use_rerank=True)` and concatenate all results in variant order. -/
def rewriterAll (env : Env) (user_query : String) : List Chunk :=
  ((expand_query_multiple user_query env.expandResponse).map
    (fun query => hybrid_search_with_rerank env.idx env.backend query 5 true)).flatten

/-- Step 3 of `execute_rag_pipeline_rewriter`: deduplicate by id. -/
def rewriterFused (env : Env) (user_query : String) : List Chunk :=
  dedupChunks (rewriterAll env user_query)

/-- Steps 4-5 of `execute_rag_pipeline_rewriter`: sort descending by
`x.get('rerank_score', 0)` (stable) and truncate to the final 5. -/
def rewriterFinal (env : Env) (user_query : String) : List Chunk :=
  (sortDescBy rerankKey (rewriterFused env user_query)).take 5

/-- `execute_rag_pipeline_rewriter` (api.py lines 224-294), up to the
context bundle handed to the LLM (the generation call itself is out of
scope).  `none` models the pipeline raising before the bundle is built. -/
def execute_rag_pipeline_rewriter (env : Env) (user_query : String) :
    Option (List ContextEntry) :=
  assembleBundle (rewriterFinal env user_query)

/-- `execute_rag_pipeline` (api.py lines 296-339), the non-expansion
pipeline, up to the context bundle handed to the LLM. -/
def execute_rag_pipeline (env : Env) (user_query : String) :
    Option (List ContextEntry) :=
  assembleBundle (hybrid_search_with_rerank env.idx env.backend user_query 5 true)

/-! ### Concrete collaborators used by counterexamples and witnesses -/

/-- A stored passage with content "A" and fusion score 9. -/
def hitA : Hit := { id := "a", content := "A", book_name := "BK", chapter := "c1", score := 9 }

/-- A stored passage with content "B" and fusion score 5. -/
def hitB : Hit := { id := "b", content := "B", book_name := "BK", chapter := "c1", score := 5 }

/-- A healthy backend that scores content "A" low (1) and anything else high (8). -/
def backendOK : RerankBackend :=
  { score := fun _ c => if c = "A" then 1 else 8, fails := false }

/-- A backend whose scoring call depends on the query: 1 for the original
query "orig", 7 for anything else. -/
def backendC1 : RerankBackend :=
  { score := fun q _ => if q = "orig" then 1 else 7, fails := false }

/-- A backend whose batch scoring call always raises. -/
def backendFail : RerankBackend := { score := fun _ _ => 0, fails := true }

/-- Environment: two hits, healthy backend, expansion yields one variant "v1". -/
def envOK : Env :=
  { idx := fun _ _ => .ok [hitA, hitB], backend := some backendOK,
    expandResponse := .ok "v1" }

/-- Environment: one hit, query-sensitive backend, expansion yields the
variant "alt phrasing" (different from the original query "orig"). -/
def envC1 : Env :=
  { idx := fun _ _ => .ok [hitA], backend := some backendC1,
    expandResponse := .ok "alt phrasing" }

/-- Environment: one hit retrieved, but the rerank backend raises. -/
def envC3 : Env :=
  { idx := fun _ _ => .ok [hitA], backend := some backendFail,
    expandResponse := .ok "v1" }

/-- Environment in which every index search call raises. -/
def envFail : Env :=
  { idx := fun _ _ => .error (), backend := some backendOK,
    expandResponse := .ok "v1" }

/-- A chunk whose id is falsy (the empty string), fusion score 9. -/
def chunkNilId1 : Chunk :=
  { id := "", content := "X", book_name := "BK", chapter := "c1", score := 9,
    rerank_score := none, original_score := none }

/-- A second chunk with the same falsy id, fusion score 5. -/
def chunkNilId2 : Chunk :=
  { id := "", content := "Y", book_name := "BK", chapter := "c1", score := 5,
    rerank_score := none, original_score := none }

/-- First-variant occurrence of passage id "x", score 6. -/
def chunkX1 : Chunk :=
  { id := "x", content := "X1", book_name := "BK", chapter := "c1", score := 6,
    rerank_score := none, original_score := none }

/-- Second-variant occurrence of passage id "x", score 99. -/
def chunkX2 : Chunk :=
  { id := "x", content := "X2", book_name := "BK", chapter := "c1", score := 99,
    rerank_score := none, original_score := none }

/-- The chunk for `hitA` after a successful rerank against "alt phrasing"
under `backendC1`. -/
def chunkA7 : Chunk :=
  { id := "a", content := "A", book_name := "BK", chapter := "c1", score := 9,
    rerank_score := some 7, original_score := some 9 }

/-- Bundle entry produced for `hitA` under `envOK`. -/
def entryA : ContextEntry :=
  { chunk_id := "a", content := "A", source_document := "book: BK - chapter: c1",
    relevance_score := 1, original_score := 9, text_preview := "A" }

/-- Bundle entry produced for `hitB` under `envOK`. -/
def entryB : ContextEntry :=
  { chunk_id := "b", content := "B", source_document := "book: BK - chapter: c1",
    relevance_score := 8, original_score := 5, text_preview := "B" }

/-- The bundle produced by the expansion pipeline under `envOK`. -/
def bundleOK : List ContextEntry := [entryB, entryA]

/-- An index answering every call with `[hitA]`. -/
def idxConst : String → Nat → Except Unit (List Hit) := fun _ _ => .ok [hitA]

/-- An index answering only calls with limit 10 with `[hitA]` (it agrees with
`idxConst` at the oversampled limit 5 * 2 and nowhere else). -/
def idxTenOnly : String → Nat → Except Unit (List Hit) :=
  fun _ n => if n = 10 then .ok [hitA] else .ok []


/-! ### Properties of the stable descending sort -/

theorem mem_insertDescBy {α : Type} (key : α → Score) (x c : α) (l : List α) :
    c ∈ insertDescBy key x l ↔ c = x ∨ c ∈ l := by
  induction l with
  | nil => simp [insertDescBy]
  | cons y ys ih =>
    unfold insertDescBy
    by_cases h : key y ≤ key x
    · simp [h]
    · simp [h, ih]
      tauto

theorem mem_sortDescBy {α : Type} (key : α → Score) (c : α) (l : List α) :
    c ∈ sortDescBy key l ↔ c ∈ l := by
  induction l with
  | nil => simp [sortDescBy]
  | cons x xs ih => simp [sortDescBy, mem_insertDescBy, ih]

theorem length_insertDescBy {α : Type} (key : α → Score) (x : α) (l : List α) :
    (insertDescBy key x l).length = l.length + 1 := by
  induction l with
  | nil => rfl
  | cons y ys ih =>
    unfold insertDescBy
    by_cases h : key y ≤ key x <;> simp [h, ih]

theorem length_sortDescBy {α : Type} (key : α → Score) (l : List α) :
    (sortDescBy key l).length = l.length := by
  induction l with
  | nil => rfl
  | cons x xs ih => simp [sortDescBy, length_insertDescBy, ih]

theorem pairwise_insertDescBy {α : Type} (key : α → Score) (x : α) {l : List α}
    (h : l.Pairwise (fun a b => key b ≤ key a)) :
    (insertDescBy key x l).Pairwise (fun a b => key b ≤ key a) := by
  induction l with
  | nil => simp [insertDescBy]
  | cons y ys ih =>
    rw [List.pairwise_cons] at h
    unfold insertDescBy
    by_cases hxy : key y ≤ key x
    · rw [if_pos hxy, List.pairwise_cons]
      refine ⟨?_, List.pairwise_cons.mpr h⟩
      intro z hz
      rcases List.mem_cons.mp hz with hz | hz
      · exact hz ▸ hxy
      · exact le_trans (h.1 z hz) hxy
    · rw [if_neg hxy, List.pairwise_cons]
      refine ⟨?_, ih h.2⟩
      intro z hz
      rcases (mem_insertDescBy key x z ys).mp hz with hz | hz
      · exact hz ▸ le_of_lt (lt_of_not_le hxy)
      · exact h.1 z hz

theorem pairwise_sortDescBy {α : Type} (key : α → Score) (l : List α) :
    (sortDescBy key l).Pairwise (fun a b => key b ≤ key a) := by
  induction l with
  | nil => simp [sortDescBy]
  | cons x xs ih => exact pairwise_insertDescBy key x ih

theorem filter_insertDescBy {α : Type} (key : α → Score) (x : α) (l : List α)
    (q : Score) :
    (insertDescBy key x l).filter (fun a => decide (key a = q)) =
      if key x = q then x :: l.filter (fun a => decide (key a = q))
      else l.filter (fun a => decide (key a = q)) := by
  induction l with
  | nil =>
    by_cases hx : key x = q <;> simp [insertDescBy, List.filter, hx]
  | cons y ys ih =>
    unfold insertDescBy
    by_cases hyx : key y ≤ key x
    · rw [if_pos hyx]
      by_cases hx : key x = q <;> simp [List.filter_cons, hx]
    · rw [if_neg hyx]
      by_cases hy : key y = q
      · have hx' : ¬ key x = q := by
          intro hxq
          exact absurd (le_of_eq (hy.trans hxq.symm)) hyx
        simp [List.filter_cons, hy, ih, hx']
      · by_cases hx : key x = q <;> simp [List.filter_cons, hy, ih, hx]

theorem filter_sortDescBy {α : Type} (key : α → Score) (l : List α) (q : Score) :
    (sortDescBy key l).filter (fun a => decide (key a = q)) =
      l.filter (fun a => decide (key a = q)) := by
  induction l with
  | nil => rfl
  | cons x xs ih =>
    rw [sortDescBy, filter_insertDescBy]
    by_cases hx : key x = q <;> simp [List.filter_cons, hx, ih]

/-! ### Properties of the dedup loop -/

theorem dedupGo_filter_of_seen (pid : String) :
    ∀ (l : List Chunk) (seen : List String), pid ∈ seen →
      (dedupGo l seen).filter (fun c => decide (c.id = pid)) = [] := by
  intro l
  induction l with
  | nil => intro seen _; rfl
  | cons c rest ih =>
    intro seen hseen
    unfold dedupGo
    by_cases hg : c.id ≠ "" ∧ c.id ∉ seen
    · rw [if_pos hg]
      have hne : ¬ c.id = pid := fun h => hg.2 (h ▸ hseen)
      rw [List.filter_cons, if_neg (by simp [hne])]
      exact ih (c.id :: seen) (List.mem_cons_of_mem _ hseen)
    · rw [if_neg hg]
      exact ih seen hseen

theorem dedupGo_filter (pid : String) (hpid : pid ≠ "") :
    ∀ (l : List Chunk) (seen : List String), pid ∉ seen →
      (dedupGo l seen).filter (fun c => decide (c.id = pid)) =
        (l.find? (fun c => decide (c.id = pid))).toList := by
  intro l
  induction l with
  | nil => intro seen _; rfl
  | cons c rest ih =>
    intro seen hseen
    by_cases hc : c.id = pid
    · have hg : c.id ≠ "" ∧ c.id ∉ seen := ⟨hc ▸ hpid, hc ▸ hseen⟩
      have h1 := dedupGo_filter_of_seen pid rest (c.id :: seen)
        (by rw [hc]; exact List.mem_cons_self _ _)
      unfold dedupGo
      rw [if_pos hg, List.filter_cons, if_pos (by simp [hc]), h1,
        List.find?_cons_of_pos _ (by simp [hc])]
      rfl
    · have hfind : (List.find? (fun c => decide (c.id = pid)) (c :: rest)) =
          List.find? (fun c => decide (c.id = pid)) rest :=
        List.find?_cons_of_neg _ (by simp [hc])
      unfold dedupGo
      by_cases hg : c.id ≠ "" ∧ c.id ∉ seen
      · rw [if_pos hg, List.filter_cons, if_neg (by simp [hc]), hfind]
        exact ih (c.id :: seen) (by
          intro hmem
          rcases List.mem_cons.mp hmem with h | h
          · exact hc h.symm
          · exact hseen h)
      · rw [if_neg hg, hfind]
        exact ih seen hseen

/-! ### Properties of the bundle assembly -/

theorem assembleEntry_relevance {c : Chunk} {e : ContextEntry}
    (h : assembleEntry c = some e) : e.relevance_score = rerankKey c := by
  unfold assembleEntry at h
  cases hrs : c.rerank_score with
  | none => rw [hrs] at h; exact absurd h (by simp)
  | some rs =>
    cases hos : c.original_score with
    | none => rw [hrs, hos] at h; exact absurd h (by simp)
    | some os =>
      rw [hrs, hos] at h
      cases h
      simp [rerankKey, hrs]

theorem assembleEntry_content {c : Chunk} {e : ContextEntry}
    (h : assembleEntry c = some e) :
    e.content = c.content ∧ e.text_preview = textPreview c.content := by
  unfold assembleEntry at h
  cases hrs : c.rerank_score with
  | none => rw [hrs] at h; exact absurd h (by simp)
  | some rs =>
    cases hos : c.original_score with
    | none => rw [hrs, hos] at h; exact absurd h (by simp)
    | some os =>
      rw [hrs, hos] at h
      cases h
      exact ⟨rfl, rfl⟩

theorem assembleBundle_cons {c : Chunk} {rest : List Chunk}
    {b : List ContextEntry} (h : assembleBundle (c :: rest) = some b) :
    ∃ e es, assembleEntry c = some e ∧ assembleBundle rest = some es ∧
      b = e :: es := by
  unfold assembleBundle at h
  cases he : assembleEntry c with
  | none => rw [he] at h; exact absurd h (by simp)
  | some e =>
    cases hes : assembleBundle rest with
    | none => rw [he, hes] at h; exact absurd h (by simp)
    | some es =>
      rw [he, hes] at h
      cases h
      exact ⟨e, es, rfl, rfl, rfl⟩

theorem assembleBundle_length :
    ∀ {l : List Chunk} {b : List ContextEntry}, assembleBundle l = some b →
      b.length = l.length := by
  intro l
  induction l with
  | nil => intro b h; cases h; rfl
  | cons c rest ih =>
    intro b h
    obtain ⟨e, es, _, hes, rfl⟩ := assembleBundle_cons h
    simp [ih hes]

theorem assembleBundle_mem :
    ∀ {l : List Chunk} {b : List ContextEntry}, assembleBundle l = some b →
      ∀ e ∈ b, ∃ c ∈ l, assembleEntry c = some e := by
  intro l
  induction l with
  | nil => intro b h; cases h; intro e he; exact absurd he (by simp)
  | cons c rest ih =>
    intro b h e he
    obtain ⟨e', es, he', hes, rfl⟩ := assembleBundle_cons h
    rcases List.mem_cons.mp he with h1 | h1
    · exact ⟨c, List.mem_cons_self c rest, h1 ▸ he'⟩
    · obtain ⟨c', hc', he''⟩ := ih hes e h1
      exact ⟨c', List.mem_cons_of_mem c hc', he''⟩

theorem assembleBundle_pairwise :
    ∀ {l : List Chunk} {b : List ContextEntry}, assembleBundle l = some b →
      l.Pairwise (fun a c => rerankKey c ≤ rerankKey a) →
      b.Pairwise (fun e f => f.relevance_score ≤ e.relevance_score) := by
  intro l
  induction l with
  | nil => intro b h _; cases h; exact List.Pairwise.nil
  | cons c rest ih =>
    intro b h hp
    obtain ⟨e, es, he, hes, rfl⟩ := assembleBundle_cons h
    rw [List.pairwise_cons] at hp
    rw [List.pairwise_cons]
    refine ⟨?_, ih hes hp.2⟩
    intro f hf
    obtain ⟨c', hc', hf'⟩ := assembleBundle_mem hes f hf
    rw [assembleEntry_relevance he, assembleEntry_relevance hf']
    exact hp.1 c' hc'

/-! ### Basic facts about the retrieval stages -/

theorem hybrid_search_rerank_none {idx : String → Nat → Except Unit (List Hit)}
    {query : String} {limit : Nat} {c : Chunk}
    (h : c ∈ hybrid_search idx query limit) : c.rerank_score = none := by
  unfold hybrid_search at h
  cases hidx : idx query limit with
  | error e => rw [hidx] at h; exact absurd h (by simp)
  | ok points =>
    rw [hidx] at h
    obtain ⟨p, _, rfl⟩ := List.mem_map.mp h
    rfl

theorem length_rerank_le (b : RerankBackend) (query : String)
    (documents : List Chunk) (top_k : Nat) :
    (DocumentReranker.rerank b query documents top_k).length ≤ top_k := by
  unfold DocumentReranker.rerank
  by_cases hd : documents = []
  · simp [hd]
  · rw [if_neg hd]
    by_cases hf : b.fails
    · simp [hf, List.length_take]
    · simp [hf, List.length_take]

theorem pairwise_rerankKey_hswr (idx : String → Nat → Except Unit (List Hit))
    (backend : Option RerankBackend) (query : String) (limit : Nat)
    (use_rerank : Bool) :
    (hybrid_search_with_rerank idx backend query limit use_rerank).Pairwise
      (fun a b => rerankKey b ≤ rerankKey a) := by
  unfold hybrid_search_with_rerank
  have hzero : ∀ c ∈ (hybrid_search idx query (limit * 2)).take limit,
      rerankKey c = 0 := by
    intro c hc
    have := hybrid_search_rerank_none (List.take_subset limit _ hc)
    simp [rerankKey, this]
  by_cases hcond : (use_rerank = true) ∧ hybrid_search idx query (limit * 2) ≠ []
  · rw [if_pos hcond]
    cases backend with
    | none =>
      exact List.pairwise_of_forall_mem_list
        (fun a ha b hb => (hzero b hb).le.trans (hzero a ha).ge)
    | some b =>
      show (DocumentReranker.rerank b query
          (hybrid_search idx query (limit * 2)) limit).Pairwise
        (fun a c => rerankKey c ≤ rerankKey a)
      unfold DocumentReranker.rerank
      by_cases hd : hybrid_search idx query (limit * 2) = []
      · simp [hd]
      · rw [if_neg hd]
        by_cases hf : b.fails
        · rw [if_pos hf]
          exact List.pairwise_of_forall_mem_list
            (fun a ha c hc => (hzero c hc).le.trans (hzero a ha).ge)
        · rw [if_neg hf]
          exact (pairwise_sortDescBy rerankKey _).sublist (List.take_sublist _ _)
  · rw [if_neg hcond]
    exact List.pairwise_of_forall_mem_list
      (fun a ha b hb => (hzero b hb).le.trans (hzero a ha).ge)

/-! ### Claim theorems -/

theorem mem_rerank_success {b : RerankBackend} {query : String}
    {documents : List Chunk} {top_k : Nat} {c : Chunk}
    (hb : b.fails = false)
    (hc : c ∈ DocumentReranker.rerank b query documents top_k) :
    c.rerank_score = some (b.score query c.content) := by
  unfold DocumentReranker.rerank at hc
  by_cases hd : documents = []
  · rw [if_pos hd] at hc
    exact absurd hc (List.not_mem_nil c)
  · rw [if_neg hd, hb, if_neg (by simp)] at hc
    have hmem := List.take_subset top_k _ hc
    rw [mem_sortDescBy] at hmem
    obtain ⟨doc, _, rfl⟩ := List.mem_map.mp hmem
    rfl

/-- Claim C1 (counterexample): with expansion enabled, the sole surviving
candidate's `relevance_score` (its `rerank_score`) is 7, the pairwise score
of the expanded variant "alt phrasing" against its content "A", while the
score of the ORIGINAL query "orig" against that content is 1 — so
`rerank_score = score_fn(original_query.text, candidate.content)` is false. -/
theorem rerank_not_against_original_query :
    (execute_rag_pipeline_rewriter envC1 "orig").map
        (fun l => l.map ContextEntry.relevance_score) = some [7]
    ∧ (execute_rag_pipeline_rewriter envC1 "orig").map
        (fun l => l.map ContextEntry.content) = some ["A"]
    ∧ backendC1.score "alt phrasing" "A" = 7
    ∧ backendC1.score "orig" "A" = 1
    ∧ (7 : Score) ≠ 1 :=
  ⟨by decide, by decide, by decide, by decide, by decide⟩

/-- Claim C1 (amended): reranking is performed per variant inside each
`hybrid_search_with_rerank` call, so each surviving candidate's
`rerank_score` is the pairwise score of the QUERY VARIANT passed to that
search call (in expansion mode, the expanded variant that retrieved it)
against the candidate's content — not necessarily the original user query. -/
theorem rerank_score_matches_search_query
    (idx : String → Nat → Except Unit (List Hit)) (b : RerankBackend)
    (query : String) (limit : Nat) (c : Chunk)
    (hb : b.fails = false)
    (hc : c ∈ hybrid_search_with_rerank idx (some b) query limit true) :
    c.rerank_score = some (b.score query c.content) := by
  unfold hybrid_search_with_rerank at hc
  by_cases hres : hybrid_search idx query (limit * 2) = []
  · rw [hres, if_neg (by simp)] at hc
    simp at hc
  · rw [if_pos ⟨rfl, hres⟩] at hc
    exact mem_rerank_success hb hc

/-- Witness for C1: the concrete candidate retrieved and reranked for the
variant "alt phrasing" carries exactly the pairwise score of that variant
against its content. -/
theorem rerank_score_matches_search_query_witness :
    backendC1.fails = false
    ∧ chunkA7.rerank_score = some (backendC1.score "alt phrasing" chunkA7.content) :=
  ⟨rfl, rerank_score_matches_search_query envC1.idx backendC1 "alt phrasing" 5
    chunkA7 rfl (by decide)⟩

/-- Claim C2 (counterexample): under `envOK` the post-dedup list is NOT
re-sorted descending by `original_score` (the output order is by
`rerank_score`, which puts original scores 5 before 9). -/
theorem post_dedup_sort_not_by_original_score :
    ¬ (sortDescBy rerankKey (rewriterFused envOK "orig")).Pairwise
      (fun a b => b.original_score.getD 0 ≤ a.original_score.getD 0) := by
  decide

/-- Claim C2 (amended): after deduplication the surviving candidate list is
re-sorted descending by `rerank_score` (a missing `rerank_score` counts as
0), with ties broken by first-seen insertion order via a stable sort
(elements with any given key keep their pre-sort relative order); the model
is a pure function, so identical inputs yield the identical ordering. -/
theorem post_dedup_sort_by_rerank_score_stable (env : Env) (user_query : String) :
    ((sortDescBy rerankKey (rewriterFused env user_query)).Pairwise
      (fun a b => rerankKey b ≤ rerankKey a))
    ∧ ∀ q : Score,
      (sortDescBy rerankKey (rewriterFused env user_query)).filter
          (fun c => decide (rerankKey c = q)) =
        (rewriterFused env user_query).filter (fun c => decide (rerankKey c = q)) :=
  ⟨pairwise_sortDescBy rerankKey _, fun q => filter_sortDescBy rerankKey _ q⟩

/-- Claim C3 (code bug): when the rerank backend raises, the recovered
candidates come back WITHOUT a `rerank_score` key, and the bundle-assembly
comprehension's `chunk["rerank_score"]` access then raises `KeyError`
(modelled as `none`): the request fails with an HTTP 500 instead of
returning the fusion-order bundle with `relevance_score = original_score`
promised by the spec. -/
theorem rerank_failure_crashes_bundle_assembly :
    hybrid_search_with_rerank envC3.idx envC3.backend "q" 5 true = [hitToChunk hitA]
    ∧ (hitToChunk hitA).rerank_score = none
    ∧ execute_rag_pipeline envC3 "q" = none :=
  ⟨by decide, rfl, by decide⟩

/-- Claim C4 (counterexample): in an environment where EVERY index search
call raises, both pipelines still succeed with an EMPTY context bundle —
no `RetrievalUnavailable` error is surfaced to the caller. -/
theorem total_search_failure_returns_empty_bundle :
    envFail.idx "q" 10 = Except.error ()
    ∧ execute_rag_pipeline envFail "q" = some []
    ∧ execute_rag_pipeline_rewriter envFail "q" = some [] :=
  ⟨rfl, by decide, by decide⟩

/-- Claim C4 (amended): a per-variant search failure only drops that
variant's contribution (its `hybrid_search_with_rerank` result is empty and
the request continues), and the pipeline NEVER surfaces a retrieval error:
even when every variant's search call fails (including the sole variant in
non-expansion mode) the request completes with an empty context bundle. -/
theorem search_failures_degrade_by_omission (env : Env) (user_query q0 : String) :
    (env.idx q0 (5 * 2) = Except.error () →
      hybrid_search_with_rerank env.idx env.backend q0 5 true = [])
    ∧ ((∀ q n, env.idx q n = Except.error ()) →
      execute_rag_pipeline_rewriter env user_query = some []
      ∧ execute_rag_pipeline env user_query = some []) := by
  have hdrop : ∀ q, env.idx q (5 * 2) = Except.error () →
      hybrid_search_with_rerank env.idx env.backend q 5 true = [] := by
    intro q h
    unfold hybrid_search_with_rerank hybrid_search
    rw [h]
    simp
  constructor
  · exact hdrop q0
  · intro hall
    have hempty : ∀ q, hybrid_search_with_rerank env.idx env.backend q 5 true = [] :=
      fun q => hdrop q (hall q (5 * 2))
    constructor
    · unfold execute_rag_pipeline_rewriter rewriterFinal rewriterFused rewriterAll
      have hflat : ((expand_query_multiple user_query env.expandResponse).map
          (fun query => hybrid_search_with_rerank env.idx env.backend query 5 true)).flatten
          = [] := by
        simp [List.flatten_eq_nil_iff, hempty]
      rw [hflat]
      rfl
    · unfold execute_rag_pipeline
      rw [hempty user_query]
      rfl

/-- Witness for C4: concrete environment where every search raises; both
pipelines return the successful empty bundle. -/
theorem search_failures_degrade_by_omission_witness :
    execute_rag_pipeline_rewriter envFail "q2" = some []
    ∧ execute_rag_pipeline envFail "q2" = some [] :=
  (search_failures_degrade_by_omission envFail "q2" "q2").2 (fun _ _ => rfl)

/-- Claim C5 (counterexample): two variants both return a hit with the same
FALSY passage id (the empty string); the deduplicated output contains that
id ZERO times, not exactly once — the guard `if chunk_id and chunk_id not
in ...` drops falsy ids entirely. -/
theorem dedup_drops_falsy_id :
    chunkNilId1.id = chunkNilId2.id
    ∧ dedupChunks ([[chunkNilId1], [chunkNilId2]].flatten) = [] :=
  ⟨rfl, by decide⟩

/-- Claim C5 (amended): provided the shared passage id is truthy
(non-empty), the deduplicated output contains exactly one chunk with that
id, namely the FIRST occurrence in the concatenated (variant-order) hit
list — later occurrences are discarded entirely, carrying their scores with
them. -/
theorem dedup_first_seen_wins (hitss : List (List Chunk)) (pid : String)
    (hpid : pid ≠ "") :
    (dedupChunks hitss.flatten).filter (fun c => decide (c.id = pid)) =
      (hitss.flatten.find? (fun c => decide (c.id = pid))).toList :=
  dedupGo_filter pid hpid hitss.flatten [] (by simp)

/-- Witness for C5: id "x" occurs in two variants' hit lists with scores 6
then 99; exactly the first occurrence (score 6) survives dedup. -/
theorem dedup_first_seen_wins_witness :
    ("x" ≠ "")
    ∧ (dedupChunks ([[chunkX1], [chunkX2]].flatten)).filter
          (fun c => decide (c.id = "x")) =
        (([[chunkX1], [chunkX2]].flatten).find? (fun c => decide (c.id = "x"))).toList :=
  ⟨by decide, dedup_first_seen_wins [[chunkX1], [chunkX2]] "x" (by decide)⟩

/-- Claim C6: query expansion always returns at least one variant; if the
generation call fails, or its output contains no usable lines (only blank
lines or sentinel "none"/"null" lines), `expand_query_multiple` returns
exactly `[original_query]`, and no failure propagates upward (the function
is total). -/
theorem expansion_always_returns_variant (original_query : String)
    (response : Except Unit String) :
    expand_query_multiple original_query response ≠ []
    ∧ (response = Except.error () →
        expand_query_multiple original_query response = [original_query])
    ∧ (∀ text, response = Except.ok text →
        (parsedQueries text).filter (fun q => !(isSentinel q)) = [] →
        expand_query_multiple original_query response = [original_query]) := by
  refine ⟨?_, ?_, ?_⟩
  · cases response with
    | error e => simp [expand_query_multiple]
    | ok text =>
      show (if parsedQueries text = [] ∨ (parsedQueries text).all isSentinel
          then [original_query]
          else (parsedQueries text).filter (fun q => !(isSentinel q))) ≠ []
      by_cases hcond : parsedQueries text = [] ∨ (parsedQueries text).all isSentinel
      · rw [if_pos hcond]
        simp
      · rw [if_neg hcond]
        push_neg at hcond
        obtain ⟨h1, h2⟩ := hcond
        have hex : ∃ q ∈ parsedQueries text, ¬ (isSentinel q = true) := by
          by_contra hno
          push_neg at hno
          exact h2 (List.all_eq_true.mpr (fun q hq => hno q hq))
        obtain ⟨q, hq, hq'⟩ := hex
        have hqf : isSentinel q = false := by
          revert hq'
          cases isSentinel q <;> simp
        intro hnil
        rw [List.filter_eq_nil_iff] at hnil
        exact hnil q hq (by simp [hqf])
  · intro h
    rw [h]
    rfl
  · intro text h hnil
    rw [h]
    show (if parsedQueries text = [] ∨ (parsedQueries text).all isSentinel
        then [original_query]
        else (parsedQueries text).filter (fun q => !(isSentinel q))) = [original_query]
    have hcond : parsedQueries text = [] ∨ (parsedQueries text).all isSentinel := by
      rw [List.filter_eq_nil_iff] at hnil
      right
      rw [List.all_eq_true]
      intro q hq
      have hni := hnil q hq
      revert hni
      cases isSentinel q <;> simp
    rw [if_pos hcond]

/-- Witness for C6: an LLM response of only sentinel and blank lines falls
back to exactly the original query. -/
theorem expansion_always_returns_variant_witness :
    (parsedQueries "None\n \nnull").filter (fun q => !(isSentinel q)) = []
    ∧ expand_query_multiple "orig" (Except.ok "None\n \nnull") = ["orig"] :=
  ⟨by decide,
   (expansion_always_returns_variant "orig" (Except.ok "None\n \nnull")).2.2
     "None\n \nnull" rfl (by decide)⟩

/-- Claim C7: in every context bundle actually produced by either pipeline
(expansion or direct), `relevance_score` is monotonically non-increasing by
list position. -/
theorem bundle_relevance_monotone (env : Env) (user_query : String)
    (b : List ContextEntry)
    (h : execute_rag_pipeline_rewriter env user_query = some b
        ∨ execute_rag_pipeline env user_query = some b) :
    b.Pairwise (fun e f => f.relevance_score ≤ e.relevance_score) := by
  rcases h with h | h
  · unfold execute_rag_pipeline_rewriter at h
    have hp : (rewriterFinal env user_query).Pairwise
        (fun a c => rerankKey c ≤ rerankKey a) :=
      (pairwise_sortDescBy rerankKey _).sublist (List.take_sublist _ _)
    exact assembleBundle_pairwise h hp
  · unfold execute_rag_pipeline at h
    exact assembleBundle_pairwise h
      (pairwise_rerankKey_hswr env.idx env.backend user_query 5 true)

/-- Witness for C7: the concrete bundle produced under `envOK` (relevance
scores 8 then 1) is monotonically non-increasing. -/
theorem bundle_relevance_monotone_witness :
    bundleOK.Pairwise (fun e f => f.relevance_score ≤ e.relevance_score) :=
  bundle_relevance_monotone envOK "orig" bundleOK (Or.inl (by decide))

/-- Claim C8: the expansion pipeline's final bundle never has more than
`top_k = 5` entries, nor more entries than there are fused (deduplicated)
candidates. -/
theorem bundle_topk_bound (env : Env) (user_query : String)
    (b : List ContextEntry)
    (h : execute_rag_pipeline_rewriter env user_query = some b) :
    b.length ≤ 5 ∧ b.length ≤ (rewriterFused env user_query).length := by
  unfold execute_rag_pipeline_rewriter at h
  rw [assembleBundle_length h]
  unfold rewriterFinal
  constructor
  · rw [List.length_take]
    exact min_le_left _ _
  · rw [List.length_take, length_sortDescBy]
    exact min_le_right _ _

/-- Witness for C8: the concrete bundle under `envOK` has 2 entries, at
most 5 and at most the 2 fused candidates. -/
theorem bundle_topk_bound_witness :
    bundleOK.length ≤ 5 ∧ bundleOK.length ≤ (rewriterFused envOK "orig").length :=
  bundle_topk_bound envOK "orig" bundleOK (by decide)

/-- Claim C9: for every entry of a bundle produced by either pipeline,
`text_preview` is the content unchanged (no marker) when the content has at
most 200 characters, and the first 200 characters followed by the ellipsis
marker "..." when it is longer. -/
theorem bundle_text_preview_truncation (env : Env) (user_query : String)
    (b : List ContextEntry) (e : ContextEntry)
    (h : execute_rag_pipeline_rewriter env user_query = some b
        ∨ execute_rag_pipeline env user_query = some b)
    (he : e ∈ b) :
    (e.content.data.length ≤ 200 → e.text_preview = e.content)
    ∧ (200 < e.content.data.length →
        e.text_preview = String.mk (e.content.data.take 200 ++ "...".data)) := by
  have hc : ∃ c, assembleEntry c = some e := by
    rcases h with h | h
    · unfold execute_rag_pipeline_rewriter at h
      obtain ⟨c, _, hc⟩ := assembleBundle_mem h e he
      exact ⟨c, hc⟩
    · unfold execute_rag_pipeline at h
      obtain ⟨c, _, hc⟩ := assembleBundle_mem h e he
      exact ⟨c, hc⟩
  obtain ⟨c, hc⟩ := hc
  obtain ⟨hcontent, hpreview⟩ := assembleEntry_content hc
  rw [hpreview, hcontent]
  constructor
  · intro hle
    unfold textPreview
    rw [if_neg (Nat.not_lt.mpr hle), List.append_nil, List.take_of_length_le hle]
  · intro hgt
    unfold textPreview
    rw [if_pos hgt]

/-- Witness for C9: the entry for content "B" (1 character, at most 200) is
previewed unchanged with no marker. -/
theorem bundle_text_preview_truncation_witness :
    entryB.text_preview = entryB.content :=
  (bundle_text_preview_truncation envOK "orig" bundleOK entryB
    (Or.inl (by decide)) (by decide)).1 (by decide)

/-- Claim C10: `hybrid_search_with_rerank` issues the underlying hybrid
index search with the oversampled limit `limit * 2` (its result depends
only on the index's answer at that limit), and its returned list has length
at most `limit` in every branch (rerank succeeds, rerank raises, reranker
construction raises, or reranking disabled). -/
theorem hybrid_search_with_rerank_oversampled
    (idx idx2 : String → Nat → Except Unit (List Hit))
    (backend : Option RerankBackend) (query : String) (limit : Nat)
    (use_rerank : Bool)
    (hagree : idx query (limit * 2) = idx2 query (limit * 2)) :
    hybrid_search_with_rerank idx backend query limit use_rerank =
      hybrid_search_with_rerank idx2 backend query limit use_rerank
    ∧ (hybrid_search_with_rerank idx backend query limit use_rerank).length
        ≤ limit := by
  have hsearch : hybrid_search idx query (limit * 2) =
      hybrid_search idx2 query (limit * 2) := by
    unfold hybrid_search
    rw [hagree]
  constructor
  · unfold hybrid_search_with_rerank
    rw [hsearch]
  · unfold hybrid_search_with_rerank
    by_cases hcond : (use_rerank = true) ∧ hybrid_search idx query (limit * 2) ≠ []
    · rw [if_pos hcond]
      cases backend with
      | none =>
        show (List.take limit (hybrid_search idx query (limit * 2))).length ≤ limit
        rw [List.length_take]
        exact min_le_left _ _
      | some b =>
        show (DocumentReranker.rerank b query
          (hybrid_search idx query (limit * 2)) limit).length ≤ limit
        exact length_rerank_le b query _ limit
    · rw [if_neg hcond]
      rw [List.length_take]
      exact min_le_left _ _

/-- Witness for C10: two indexes that agree (only) at limit 5 * 2 = 10 give
identical results, of length at most 5. -/
theorem hybrid_search_with_rerank_oversampled_witness :
    idxConst "q" (5 * 2) = idxTenOnly "q" (5 * 2)
    ∧ hybrid_search_with_rerank idxConst (some backendOK) "q" 5 true =
        hybrid_search_with_rerank idxTenOnly (some backendOK) "q" 5 true
    ∧ (hybrid_search_with_rerank idxConst (some backendOK) "q" 5 true).length ≤ 5 := by
  have h := hybrid_search_with_rerank_oversampled idxConst idxTenOnly
    (some backendOK) "q" 5 true rfl
  exact ⟨rfl, h.1, h.2⟩

end RagPdf
